import Mathlib

/-!
Verification of the meal-tracker persistence layer (src/meal.py).

The Python source is shallowly embedded: the filesystem is an association
list from paths to file states, every operation is an explicit function on
that state, the ambient clock is an explicit parameter, and operations that
can raise an uncaught Python exception return an Option (none = crash).
Printed messages are collected in a list of strings.
-/

namespace MealTracker

/-! ## Calendar arithmetic (mirrors datetime date handling)

A datetime value is modelled as an integer number of seconds; a parsed
date stamp sits at midnight of its day, and timedelta days scale by 86400,
matching the ordering behaviour of Python datetime objects.
-/

def isLeap (y : Nat) : Bool :=
  (y % 4 == 0 && y % 100 != 0) || y % 400 == 0

def daysInMonth (y m : Nat) : Nat :=
  if m = 2 then (if isLeap y then 29 else 28)
  else if m = 4 ∨ m = 6 ∨ m = 9 ∨ m = 11 then 30
  else 31

def daysBeforeMonth (y m : Nat) : Nat :=
  (List.range (m - 1)).foldl (fun acc i => acc + daysInMonth y (i + 1)) 0

/-- Proleptic Gregorian ordinal of a calendar day, as in Python date.toordinal. -/
def toOrdinal (y m d : Nat) : Nat :=
  365 * (y - 1) + (y - 1) / 4 - (y - 1) / 100 + (y - 1) / 400 + daysBeforeMonth y m + d

def SECONDS_PER_DAY : Int := 86400

def digitVal (c : Char) : Option Nat :=
  if c.isDigit then some (c.toNat - 48) else none

/-- Parse of a bracketed date stamp, as strptime with the format used by the
program on its canonical zero-padded output \x5bYYYY-MM-DD\x5d; the result is
the midnight instant of that day, in seconds. Returns none (a ValueError in
the source) on any malformed input. -/
def parseTimestamp (s : String) : Option Int :=
  match s.data with
  | ['[', y1, y2, y3, y4, '-', m1, m2, '-', d1, d2, ']'] => do
      let a ← digitVal y1
      let b ← digitVal y2
      let c ← digitVal y3
      let d ← digitVal y4
      let e ← digitVal m1
      let f ← digitVal m2
      let g ← digitVal d1
      let h ← digitVal d2
      let y := a * 1000 + b * 100 + c * 10 + d
      let m := e * 10 + f
      let dd := g * 10 + h
      if 1 ≤ y ∧ 1 ≤ m ∧ m ≤ 12 ∧ 1 ≤ dd ∧ dd ≤ daysInMonth y m then
        some ((toOrdinal y m dd : Int) * SECONDS_PER_DAY)
      else none
  | _ => none

/-- The ambient wall clock (datetime.now), made explicit: a calendar day plus
the number of seconds elapsed within that day. -/
structure Clock where
  year : Nat
  month : Nat
  day : Nat
  sec : Nat
deriving Repr, DecidableEq

def nowTicks (c : Clock) : Int :=
  (toOrdinal c.year c.month c.day : Int) * SECONDS_PER_DAY + (c.sec : Int)

def padNum (w n : Nat) : String :=
  let s := toString n
  String.mk (List.replicate (w - s.length) '0') ++ s

/-- current_timestamp: strftime of now with the bracketed date format. -/
def current_timestamp (c : Clock) : String :=
  "[" ++ padNum 4 c.year ++ "-" ++ padNum 2 c.month ++ "-" ++ padNum 2 c.day ++ "]"

/-! ## Records and the filesystem model -/

/-- One JSON object stored in a data file. Every key the program ever reads
is modelled as an optional string field; a missing key is none. Suggestion
records use only the content field. -/
structure MealRec where
  timestamp : Option String
  date : Option String
  content : Option String
  meal : Option String
deriving Repr, DecidableEq

/-- On-disk state of one path: missing, present with syntactically invalid
JSON (the raw text kept so a verbatim copy can be modelled), or present with
a JSON array of records. -/
inductive FileState where
  | absent
  | corrupt (raw : String)
  | stored (recs : List MealRec)
deriving Repr, DecidableEq

/-- The filesystem: an association list from path to file state. Later
entries are shadowed by earlier ones; paths not listed are absent. -/
abbrev FS := List (String × FileState)

def readFs (fs : FS) (p : String) : FileState :=
  (List.lookup p fs).getD .absent

def writeFs (fs : FS) (p : String) (st : FileState) : FS :=
  (p, st) :: fs

/-! ## Path resolution (os.path on POSIX, as used by the source) -/

def BACKUP_SUFFIX : String := "backup_"

def SUGGESTION_SUFFIX : String := "suggestion_"

/-- posixpath.join of two components. -/
def joinPath (a b : String) : String :=
  if b.data.head? = some '/' then b
  else if a = "" ∨ a.data.getLast? = some '/' then a ++ b
  else a ++ "/" ++ b

/-- posixpath.basename: everything after the last slash. -/
def basename (p : String) : String :=
  String.mk (p.data.reverse.takeWhile (fun c => c ≠ '/')).reverse

/-- posixpath.dirname: everything before the last slash, with trailing
slashes stripped unless the head is all slashes. -/
def dirname (p : String) : String :=
  let head := (p.data.reverse.dropWhile (fun c => c ≠ '/')).reverse
  if head.all (fun c => c = '/') then String.mk head
  else String.mk (head.reverse.dropWhile (fun c => c = '/')).reverse

/-- get_data_file from the source. -/
def get_data_file (live : Bool) (cli_path : Option String) : String :=
  if live then
    match cli_path with
    | none => "./live/meals.json"
    | some p => joinPath (joinPath (dirname p) "live") (basename p ++ ".json")
  else
    match cli_path with
    | none => "./test/meals.json"
    | some p => joinPath (joinPath (dirname p) "test") (basename p ++ ".json")

/-- get_suggestion_file from the source. -/
def get_suggestion_file (live : Bool) (cli_path : Option String) : String :=
  if live then
    match cli_path with
    | none => "./live/suggestion.json"
    | some p => joinPath (joinPath (dirname p) "live") (SUGGESTION_SUFFIX ++ basename p ++ ".json")
  else
    match cli_path with
    | none => "./test/suggestion.json"
    | some p => joinPath (joinPath (dirname p) "test") (SUGGESTION_SUFFIX ++ basename p ++ ".json")

/-- The backup path computed inside save_file and restore:
join(dirname(p), "backup", BACKUP_SUFFIX + basename(p)). -/
def backupPath (p : String) : String :=
  joinPath (joinPath (dirname p) "backup") (BACKUP_SUFFIX ++ basename p)

/-! ## Store: load_file and save_file -/

/-- load_file: a missing file is an empty list, invalid JSON prints a message
and yields none (the distinguished failed result), otherwise the stored list. -/
def load_file (fs : FS) (data_file : String) : Option (List MealRec) × List String :=
  match readFs fs data_file with
  | .absent => (some [], [])
  | .corrupt _ => (none, ["Corrupted file. Abort loading"])
  | .stored l => (some l, [])

/-- save_file: if a file exists at the path it is first copied verbatim to
the backup path, then the records overwrite the path. Directory creation has
no observable effect in this model and backup copying cannot fail. -/
def save_file (fs : FS) (data : List MealRec) (data_file : String) : FS :=
  let fs1 :=
    match readFs fs data_file with
    | .absent => fs
    | st => writeFs fs (backupPath data_file) st
  writeFs fs1 data_file (.stored data)

/-- Python str.lower on the ASCII range (the only characters the data of
this program uses), character by character. -/
def lowerChar (c : Char) : Char :=
  if 'A' ≤ c ∧ c ≤ 'Z' then Char.ofNat (c.toNat + 32) else c

def lowerStr (s : String) : String :=
  String.mk (s.data.map lowerChar)

/-! ## RecordCleaner -/

/-- clean_old_meals: keeps the records whose parsed timestamp is at least
now minus the cutoff in days. A record with no timestamp key (KeyError) or
with an unparsable timestamp (ValueError) crashes the whole operation: none. -/
def clean_old_meals (now : Int) (meals : List MealRec) (days : Int := 30) : Option (List MealRec) :=
  match meals with
  | [] => some []
  | r :: rest => do
      let ts ← r.timestamp
      let t ← parseTimestamp ts
      let tail ← clean_old_meals now rest days
      pure (if t ≥ now - days * SECONDS_PER_DAY then r :: tail else tail)

/-! ## MealLedger and SuggestionBook operations -/

/-- The generator-any over suggestions in the source: short-circuits at the
first case-insensitive match; a suggestion reached without a content key is
a KeyError crash (none). -/
def anyContentMatches (meal : String) : List MealRec → Option Bool
  | [] => some false
  | s :: rest => do
      let c ← s.content
      if lowerStr c == lowerStr meal then some true else anyContentMatches meal rest

/-- The ledger entry appended by add_meal: timestamp is the given
already-bracketed date if present, else the current date stamp. -/
def newEntry (c : Clock) (meal : String) (date : Option String) : MealRec :=
  { timestamp := some (date.getD (current_timestamp c)), date := none,
    content := some meal, meal := none }

/-- The suggestion record appended by add_meal and add_suggestion. -/
def suggEntry (meal : String) : MealRec :=
  { timestamp := none, date := none, content := some meal, meal := none }

/-- add_meal: loads the ledger (a failed load is replaced by the empty
list), prunes old records, appends the new entry, saves, then mirrors the
content into the suggestion file unless a case-insensitive match exists. -/
def add_meal (c : Clock) (meal : String) (meal_file suggestion_file : String)
    (date : Option String) (fs : FS) : Option (FS × List String) := do
  let (mOpt, out1) := load_file fs meal_file
  let meals0 := mOpt.getD []
  let meals ← clean_old_meals (nowTicks c) meals0
  let entry := newEntry c meal date
  let fs1 := save_file fs (meals ++ [entry]) meal_file
  let out2 := ["Meal added: " ++ meal]
  let (sOpt, out3) := load_file fs1 suggestion_file
  let suggestions := sOpt.getD []
  let dup ← anyContentMatches meal suggestions
  if dup then
    pure (fs1, out1 ++ out2 ++ out3)
  else
    pure (save_file fs1 (suggestions ++ [suggEntry meal]) suggestion_file, out1 ++ out2 ++ out3)

/-- Python `x or y` over optional strings: a missing value and the empty
string both fall through to the second operand. -/
def pyOr (x y : Option String) : Option String :=
  match x with
  | none => y
  | some s => if s = "" then y else some s

/-- Python `x or d` with a final string literal default. -/
def pyOrS (x : Option String) (d : String) : String :=
  match x with
  | none => d
  | some s => if s = "" then d else s

/-- Display timestamp of a record: timestamp, else date, else the sentinel. -/
def displayTimestamp (r : MealRec) : String :=
  pyOrS (pyOr r.timestamp r.date) "unknown date"

/-- Display content of a record: content, else meal, else the sentinel. -/
def displayContent (r : MealRec) : String :=
  pyOrS (pyOr r.content r.meal) "unknown meal"

def mealRow (i : Nat) (r : MealRec) : String :=
  toString (i + 1) ++ ". " ++ displayTimestamp r ++ " - " ++ displayContent r

/-- list_meals: prints one row per record, 1-based, in file order; an empty
or failed load prints a not-found message. Never writes. -/
def list_meals (fs : FS) (data_file : String) : FS × List String :=
  let (dOpt, out1) := load_file fs data_file
  match dOpt with
  | none => (fs, out1 ++ ["No meals found"])
  | some [] => (fs, out1 ++ ["No meals found"])
  | some data => (fs, out1 ++ data.enum.map (fun ir => mealRow ir.1 ir.2))

/-- delete_meal: pops the record at the 1-based index when in range and
saves; otherwise reports an invalid index and writes nothing. A failed load
crashes on len(None): none. -/
def delete_meal (index : Int) (fs : FS) (data_file : String) : Option (FS × List String) :=
  match load_file fs data_file with
  | (none, _) => none
  | (some data, out1) =>
    if 0 < index ∧ index ≤ (data.length : Int) then
      match data.get? (index - 1).toNat with
      | none => none
      | some removed =>
        let newData := data.take (index - 1).toNat ++ data.drop ((index - 1).toNat + 1)
        some (save_file fs newData data_file,
          out1 ++ ["Deleted meal " ++ toString index ++ ": " ++ displayContent removed])
    else
      some (fs, out1 ++ ["Invalid meal number"])

/-- delete_all: saves the empty list unconditionally. -/
def delete_all (fs : FS) (data_file : String) : FS × List String :=
  (save_file fs [] data_file, ["Deleted all meals"])

/-- restore: reads the ledger backup and overwrites the live ledger, then
reads the suggestion backup and overwrites the live suggestion file; the
first missing or corrupted backup stops the sequence, leaving any write
already made in place. -/
def restore (fs : FS) (data_file suggestion_file : String) : FS × List String :=
  match readFs fs (backupPath data_file) with
  | .absent => (fs, ["No file to restore from"])
  | .corrupt _ => (fs, ["Corrupted file. Abort restoring"])
  | .stored d =>
    let fs1 := writeFs fs data_file (.stored d)
    match readFs fs1 (backupPath suggestion_file) with
    | .absent => (fs1, ["No file to restore from"])
    | .corrupt _ => (fs1, ["Corrupted file. Abort restoring"])
    | .stored s => (writeFs fs1 suggestion_file (.stored s), ["Successfully restored."])

/-- The loop over ledger records in suggest_meal: every record has its
timestamp parsed (missing key or parse failure crashes), and the lowercased
content of those within the recency window is collected. -/
def recentNames (now : Int) : List MealRec → Option (List String)
  | [] => some []
  | r :: rest => do
      let ts ← r.timestamp
      let t ← parseTimestamp ts
      if t ≥ now - 14 * SECONDS_PER_DAY then
        let c ← r.content
        let tail ← recentNames now rest
        pure (lowerStr c :: tail)
      else
        recentNames now rest

/-- The list comprehension in suggest_meal: contents of the suggestions
whose lowercased content is not among the recent names; a suggestion without
a content key crashes. -/
def eligibleFrom (recents : List String) : List MealRec → Option (List String)
  | [] => some []
  | m :: rest => do
      let c ← m.content
      let tail ← eligibleFrom recents rest
      pure (if lowerStr c ∈ recents then tail else c :: tail)

/-- The eligible-suggestion computation of suggest_meal: a failed or empty
ledger load contributes no recent names. -/
def suggest_eligible (now : Int) (recent_meals : Option (List MealRec))
    (suggestions : List MealRec) : Option (List String) := do
  let recents ← match recent_meals with
    | none => pure ([] : List String)
    | some [] => pure ([] : List String)
    | some ms => recentNames now ms
  eligibleFrom recents suggestions

/-- random.choice, with the randomness source made explicit as an index. -/
def choice (k : Nat) (l : List String) : String :=
  l.getD (k % l.length) ""

/-- suggest_meal: loads both files, reports when there are no suggestions,
otherwise prints one eligible suggestion (or a none-eligible message).
Never writes; crashes (none) exactly when the eligible computation does. -/
def suggest_meal (c : Clock) (k : Nat) (fs : FS) (meal_file suggestion_file : String) :
    Option (FS × List String) :=
  let (recent_meals, out1) := load_file fs meal_file
  let (sOpt, out2) := load_file fs suggestion_file
  match sOpt with
  | none => some (fs, out1 ++ out2 ++ ["No suggestions available."])
  | some [] => some (fs, out1 ++ out2 ++ ["No suggestions available."])
  | some suggestions =>
    match suggest_eligible (nowTicks c) recent_meals suggestions with
    | none => none
    | some eligible =>
      if eligible.isEmpty then
        some (fs, out1 ++ out2 ++ ["No meal found that has not been eaten in the last 2 weeks."])
      else
        some (fs, out1 ++ out2 ++ ["Suggested meal: " ++ choice k eligible])

/-- add_suggestion: appends and saves unless a case-insensitive match
already exists, in which case it reports and writes nothing. -/
def add_suggestion (meal : String) (fs : FS) (suggestion_file : String) :
    Option (FS × List String) :=
  let (sOpt, out1) := load_file fs suggestion_file
  let suggestions := sOpt.getD []
  match anyContentMatches meal suggestions with
  | none => none
  | some true => some (fs, out1 ++ ["Suggestion already exists: " ++ meal])
  | some false =>
    some (save_file fs (suggestions ++ [suggEntry meal]) suggestion_file,
      out1 ++ ["Added suggestion: " ++ meal])

/-- list_suggestions: prints one row per suggestion; the content key read
with a plain default (no falsy fall-through here). Never writes. -/
def list_suggestions (fs : FS) (suggestion_file : String) : FS × List String :=
  let (sOpt, out1) := load_file fs suggestion_file
  match sOpt with
  | none => (fs, out1 ++ ["No suggestions found."])
  | some [] => (fs, out1 ++ ["No suggestions found."])
  | some l => (fs, out1 ++ l.enum.map (fun ir => toString (ir.1 + 1) ++ ". " ++ ir.2.content.getD "unknown"))

/-! ## Specification-side definitions, written from the words of the spec -/

/-- Keep-predicate of the retention window: the record parses and its day is
within the window. -/
def keepsMeal (now days : Int) (r : MealRec) : Bool :=
  match r.timestamp.bind parseTimestamp with
  | some t => t ≥ now - days * SECONDS_PER_DAY
  | none => false

/-- Modelled from the spec sentence for suggest: the set of lowercased
contents of ledger records with timestamp within the 14-day recency window. -/
def spec_recentSet (now : Int) (ms : List MealRec) : List String :=
  ms.filterMap (fun r =>
    match r.timestamp.bind parseTimestamp, r.content with
    | some t, some cnt => if t ≥ now - 14 * SECONDS_PER_DAY then some (lowerStr cnt) else none
    | _, _ => none)

/-- Modelled from the spec sentence for suggest: the suggestions whose
lowercased content is not in the recent set. -/
def spec_eligible (now : Int) (ms suggs : List MealRec) : List String :=
  (suggs.filterMap (fun s => s.content)).filter
    (fun cs => decide (lowerStr cs ∉ spec_recentSet now ms))

/-- Case-insensitive content match of a suggestion against a given string. -/
def ciMatch (meal : String) (s : MealRec) : Bool :=
  match s.content with
  | some cs => lowerStr cs == lowerStr meal
  | none => false

/-- Number of suggestions case-insensitively matching a given content. -/
def countCI (meal : String) (l : List MealRec) : Nat :=
  l.countP (ciMatch meal)

/-- Well-formedness of a ledger record for the suggest path: its timestamp
parses and it has a content. -/
def wfMealB (r : MealRec) : Bool :=
  (r.timestamp.bind parseTimestamp).isSome && r.content.isSome

/-! ## Helper lemmas about the store -/

theorem readFs_writeFs (fs : FS) (p q : String) (v : FileState) :
    readFs (writeFs fs p v) q = if q = p then v else readFs fs q := by
  by_cases h : q = p
  · simp [readFs, writeFs, List.lookup, h]
  · have hb : (q == p) = false := by simpa using h
    simp [readFs, writeFs, List.lookup, hb, h]

theorem readFs_save_self (fs : FS) (l : List MealRec) (p : String) :
    readFs (save_file fs l p) p = .stored l := by
  unfold save_file
  cases h : readFs fs p <;> simp [readFs_writeFs]

theorem readFs_save_other (fs : FS) (l : List MealRec) (p q : String)
    (hq : q ≠ p) (hb : q ≠ backupPath p) :
    readFs (save_file fs l p) q = readFs fs q := by
  unfold save_file
  cases h : readFs fs p <;> simp [readFs_writeFs, hq, hb]

theorem load_file_eq_of_readFs_eq (fs1 fs2 : FS) (p : String)
    (h : readFs fs1 p = readFs fs2 p) : load_file fs1 p = load_file fs2 p := by
  unfold load_file
  rw [h]

/-! ## Helper lemmas about cleaning and matching -/

theorem clean_old_meals_eq_filter (now : Int) (meals : List MealRec) (days : Int)
    (h : ∀ r ∈ meals, (r.timestamp.bind parseTimestamp).isSome = true) :
    clean_old_meals now meals days = some (meals.filter (keepsMeal now days)) := by
  induction meals with
  | nil => simp [clean_old_meals]
  | cons r rest ih =>
      have hr := h r (List.mem_cons_self r rest)
      have hrest : ∀ x ∈ rest, (x.timestamp.bind parseTimestamp).isSome = true :=
        fun x hx => h x (List.mem_cons_of_mem r hx)
      cases hts : r.timestamp with
      | none => rw [hts] at hr; simp at hr
      | some ts =>
          cases hpt : parseTimestamp ts with
          | none => rw [hts] at hr; simp [hpt] at hr
          | some t =>
              rw [clean_old_meals, hts]
              simp only [Option.some_bind, hpt, ih hrest]
              by_cases hcut : t ≥ now - days * SECONDS_PER_DAY
              · simp [List.filter_cons, keepsMeal, hts, hpt, hcut]
                linarith
              · simp [List.filter_cons, keepsMeal, hts, hpt, hcut]
                linarith [lt_of_not_ge hcut]

theorem clean_old_meals_none (now : Int) (meals : List MealRec) (days : Int)
    (h : ∃ r ∈ meals, r.timestamp.bind parseTimestamp = none) :
    clean_old_meals now meals days = none := by
  induction meals with
  | nil => simp at h
  | cons r rest ih =>
      rw [clean_old_meals]
      rcases h with ⟨x, hx, hbad⟩
      rcases List.mem_cons.mp hx with rfl | hxr
      · cases hts : x.timestamp with
        | none => simp
        | some ts =>
            rw [hts] at hbad
            simp only [Option.some_bind] at hbad
            simp [hbad]
      · cases hts : r.timestamp with
        | none => simp
        | some ts =>
            cases hpt : parseTimestamp ts with
            | none => simp [hpt]
            | some t => simp [hpt, ih ⟨x, hxr, hbad⟩]

theorem anyContentMatches_eq (meal : String) (l : List MealRec)
    (h : ∀ s ∈ l, s.content.isSome = true) :
    anyContentMatches meal l = some (l.any (ciMatch meal)) := by
  induction l with
  | nil => simp [anyContentMatches]
  | cons s rest ih =>
      have hs := h s (List.mem_cons_self s rest)
      have hrest : ∀ x ∈ rest, x.content.isSome = true :=
        fun x hx => h x (List.mem_cons_of_mem s hx)
      cases hc : s.content with
      | none => rw [hc] at hs; simp at hs
      | some cs =>
          rw [anyContentMatches, hc]
          by_cases hm : lowerStr cs = lowerStr meal
          · have hcm : ciMatch meal s = true := by simp [ciMatch, hc, hm]
            simp [List.any_cons, hcm, hm]
          · have hcm : ciMatch meal s = false := by simp [ciMatch, hc, hm]
            simp [List.any_cons, hcm, hm, ih hrest]

theorem recentNames_eq (now : Int) (ms : List MealRec)
    (h : ∀ r ∈ ms, wfMealB r = true) :
    recentNames now ms = some (spec_recentSet now ms) := by
  induction ms with
  | nil => simp [recentNames, spec_recentSet]
  | cons r rest ih =>
      have hr := h r (List.mem_cons_self r rest)
      have hrest : ∀ x ∈ rest, wfMealB x = true :=
        fun x hx => h x (List.mem_cons_of_mem r hx)
      unfold wfMealB at hr
      rw [Bool.and_eq_true] at hr
      cases hts : r.timestamp with
      | none => rw [hts] at hr; simp at hr
      | some ts =>
          cases hpt : parseTimestamp ts with
          | none => rw [hts] at hr; simp [hpt] at hr
          | some t =>
              cases hc : r.content with
              | none => rw [hc] at hr; simp at hr
              | some cs =>
                  rw [recentNames, hts]
                  simp only [Option.some_bind, hpt, hc]
                  by_cases hcut : t ≥ now - 14 * SECONDS_PER_DAY
                  · have hcond : now ≤ t + 14 * SECONDS_PER_DAY := by linarith
                    simp [hcut, ih hrest, spec_recentSet, List.filterMap_cons, hts, hpt, hc, hcond]
                  · have hlt : t + 14 * SECONDS_PER_DAY < now := by linarith [lt_of_not_ge hcut]
                    have hcond : ¬ now ≤ t + 14 * SECONDS_PER_DAY := by linarith
                    simp [hcut, ih hrest, spec_recentSet, List.filterMap_cons, hts, hpt, hc, hcond]

theorem eligibleFrom_eq (recents : List String) (suggs : List MealRec)
    (h : ∀ s ∈ suggs, s.content.isSome = true) :
    eligibleFrom recents suggs =
      some ((suggs.filterMap (fun s => s.content)).filter
        (fun cs => decide (lowerStr cs ∉ recents))) := by
  induction suggs with
  | nil => simp [eligibleFrom]
  | cons s rest ih =>
      have hs := h s (List.mem_cons_self s rest)
      have hrest : ∀ x ∈ rest, x.content.isSome = true :=
        fun x hx => h x (List.mem_cons_of_mem s hx)
      cases hc : s.content with
      | none => rw [hc] at hs; simp at hs
      | some cs =>
          rw [eligibleFrom, hc]
          simp only [Option.some_bind, ih hrest]
          by_cases hm : lowerStr cs ∈ recents
          · simp [hm, List.filterMap_cons, hc]
          · simp [hm, List.filterMap_cons, hc]

theorem choice_mem (k : Nat) (l : List String) (h : l ≠ []) : choice k l ∈ l := by
  unfold choice
  have hlen : 0 < l.length := List.length_pos.mpr h
  have hk : k % l.length < l.length := Nat.mod_lt k hlen
  rw [List.getD_eq_get? , List.get?_eq_get hk]
  exact List.get_mem l _ hk

/-! ## Concrete scenario data -/

def clkW : Clock := ⟨2024, 3, 21, 43200⟩

def recA : MealRec := ⟨some "[2024-03-21]", none, some "A", none⟩

def recB : MealRec := ⟨some "[2024-03-01]", none, some "B", none⟩

def recOld : MealRec := ⟨some "[2024-01-01]", none, some "old", none⟩

/-! ## Claim C6 -/

/-- Claim C6: for a list of meal records whose timestamps all parse in the
bracketed format, pruning keeps a record iff its parsed timestamp is at
least now minus cutoffDays, preserving order (the result is a filter of the
input); and one unparsable timestamp is fatal for the whole operation. -/
theorem C6_prune_iff (now days : Int) (meals : List MealRec) :
    ((∀ r ∈ meals, (r.timestamp.bind parseTimestamp).isSome = true) →
      clean_old_meals now meals days = some (meals.filter (keepsMeal now days))) ∧
    ((∃ r ∈ meals, r.timestamp.bind parseTimestamp = none) →
      clean_old_meals now meals days = none) ∧
    (∀ r t, r.timestamp.bind parseTimestamp = some t →
      (keepsMeal now days r = true ↔ t ≥ now - days * SECONDS_PER_DAY)) := by
  refine ⟨clean_old_meals_eq_filter now meals days, clean_old_meals_none now meals days, ?_⟩
  intro r t h
  simp [keepsMeal, h]

/-- Witness for C6 at a concrete input: a record 80 days old is dropped, a
record of today is kept, and a record with an unparsable stamp is fatal. -/
theorem C6_prune_iff_witness :
    ([recOld, recA].all (fun r => (r.timestamp.bind parseTimestamp).isSome) = true) ∧
    clean_old_meals (nowTicks clkW) [recOld, recA] 30 = some [recA] ∧
    clean_old_meals (nowTicks clkW) [⟨some "2024-01-01", none, some "bad", none⟩] 30 = none :=
  ⟨by decide,
   ((C6_prune_iff (nowTicks clkW) 30 [recOld, recA]).1 (by decide)).trans (by decide),
   (C6_prune_iff (nowTicks clkW) 30 [⟨some "2024-01-01", none, some "bad", none⟩]).2.1
     ⟨⟨some "2024-01-01", none, some "bad", none⟩, by decide, by decide⟩⟩

/-! ## Claim C5 -/

/-- Claim C5: suggest builds the recent set as the lowercased contents of
ledger records with timestamp within 14 days of now, the eligible list is
exactly the suggestions whose lowercased content is not in that set, and
any returned suggestion is a member of the eligible list. -/
theorem C5_suggest_eligible (now : Int) (ms suggs : List MealRec)
    (hm : ∀ r ∈ ms, wfMealB r = true)
    (hs : ∀ s ∈ suggs, s.content.isSome = true) :
    suggest_eligible now (some ms) suggs = some (spec_eligible now ms suggs) ∧
    (spec_eligible now ms suggs ≠ [] →
      ∀ k, choice k (spec_eligible now ms suggs) ∈ spec_eligible now ms suggs) := by
  constructor
  · cases ms with
    | nil =>
        rw [show suggest_eligible now (some []) suggs = eligibleFrom [] suggs from rfl,
          eligibleFrom_eq [] suggs hs]
        simp [spec_eligible, spec_recentSet]
    | cons r rest =>
        rw [show suggest_eligible now (some (r :: rest)) suggs =
              (recentNames now (r :: rest)).bind (fun ns => eligibleFrom ns suggs) from rfl,
          recentNames_eq now (r :: rest) hm]
        simp only [Option.some_bind]
        rw [eligibleFrom_eq _ suggs hs]
        rfl
  · intro hne k
    exact choice_mem k _ hne

/-- Witness for C5, the scenario of the claim: ledger has A today and B
twenty days ago, suggestions are A, B, C; the eligible list is exactly
B then C, and A is not in it. -/
theorem C5_suggest_eligible_witness :
    ([recA, recB].all wfMealB = true) ∧
    suggest_eligible (nowTicks clkW) (some [recA, recB])
      [suggEntry "A", suggEntry "B", suggEntry "C"] = some ["B", "C"] ∧
    "A" ∉ (["B", "C"] : List String) :=
  ⟨by decide,
   ((C5_suggest_eligible (nowTicks clkW) [recA, recB]
       [suggEntry "A", suggEntry "B", suggEntry "C"] (by decide) (by decide)).1).trans
     (by decide),
   by decide⟩

/-! ## Claim C8 -/

/-- Claim C8: on a well-formed ledger, deleteOne with an in-range 1-based
index removes exactly the record at that position, persists the remaining
records in order and reports the removed content; an out-of-range index is
reported as invalid, does not crash, and leaves the filesystem unchanged. -/
theorem C8_delete_one (fs : FS) (p : String) (l : List MealRec) (index : Int)
    (hread : readFs fs p = .stored l) :
    ((0 < index ∧ index ≤ (l.length : Int)) →
      ∃ removed, l.get? (index - 1).toNat = some removed ∧
        delete_meal index fs p =
          some (save_file fs (l.take (index - 1).toNat ++ l.drop ((index - 1).toNat + 1)) p,
            ["Deleted meal " ++ toString index ++ ": " ++ displayContent removed]) ∧
        readFs (save_file fs (l.take (index - 1).toNat ++ l.drop ((index - 1).toNat + 1)) p) p =
          .stored (l.take (index - 1).toNat ++ l.drop ((index - 1).toNat + 1))) ∧
    (¬(0 < index ∧ index ≤ (l.length : Int)) →
      delete_meal index fs p = some (fs, ["Invalid meal number"])) := by
  have hload : load_file fs p = (some l, []) := by simp [load_file, hread]
  constructor
  · intro hrange
    have hlt : (index - 1).toNat < l.length := by omega
    cases hget : l.get? (index - 1).toNat with
    | none => exact absurd (List.get?_eq_none.mp hget) (by omega)
    | some removed =>
        refine ⟨removed, rfl, ?_, readFs_save_self _ _ _⟩
        unfold delete_meal
        rw [hload]
        dsimp only
        rw [if_pos hrange, hget]
        simp
  · intro hrange
    unfold delete_meal
    rw [hload]
    dsimp only
    rw [if_neg hrange]
    simp

def fsC8 : FS := [("./test/meals.json", .stored [recA, recB])]

/-- Witness for C8 at the spec scenario: delete(5) on a 2-entry ledger
reports an invalid index and changes nothing. -/
theorem C8_delete_one_witness :
    readFs fsC8 "./test/meals.json" = .stored [recA, recB] ∧
    delete_meal 5 fsC8 "./test/meals.json" = some (fsC8, ["Invalid meal number"]) :=
  ⟨by decide,
   (C8_delete_one fsC8 "./test/meals.json" [recA, recB] 5 (by decide)).2 (by decide)⟩

/-! ## Claim C7 -/

/-- Claim C7: adding the same suggestion twice leaves exactly one suggestion
case-insensitively equal to it. When no case-insensitive match exists the
first call appends the record and persists, and any call that finds a match
reports that it already exists and performs no write. -/
theorem C7_addsuggest_idem (fs : FS) (p x : String) (l : List MealRec)
    (hread : readFs fs p = .stored l)
    (hwf : ∀ s ∈ l, s.content.isSome = true)
    (huniq : countCI x l ≤ 1) :
    (countCI x l = 0 →
      add_suggestion x fs p =
        some (save_file fs (l ++ [suggEntry x]) p, ["Added suggestion: " ++ x]) ∧
      readFs (save_file fs (l ++ [suggEntry x]) p) p = .stored (l ++ [suggEntry x]) ∧
      add_suggestion x (save_file fs (l ++ [suggEntry x]) p) p =
        some (save_file fs (l ++ [suggEntry x]) p, ["Suggestion already exists: " ++ x]) ∧
      countCI x (l ++ [suggEntry x]) = 1) ∧
    (1 ≤ countCI x l →
      add_suggestion x fs p = some (fs, ["Suggestion already exists: " ++ x]) ∧
      countCI x l = 1) := by
  have hload : load_file fs p = (some l, []) := by simp [load_file, hread]
  have hany := anyContentMatches_eq x l hwf
  have hself : ciMatch x (suggEntry x) = true := by simp [ciMatch, suggEntry]
  constructor
  · intro h0
    have hfalse : l.any (ciMatch x) = false := by
      rw [List.any_eq_false]
      intro s hsmem hcim
      have : 0 < countCI x l := List.countP_pos.mpr ⟨s, hsmem, hcim⟩
      omega
    have hcall1 : add_suggestion x fs p =
        some (save_file fs (l ++ [suggEntry x]) p, ["Added suggestion: " ++ x]) := by
      unfold add_suggestion
      rw [hload]
      simp only [Option.getD_some]
      rw [hany, hfalse]
      simp
    refine ⟨hcall1, readFs_save_self _ _ _, ?_, ?_⟩
    · have hread2 : readFs (save_file fs (l ++ [suggEntry x]) p) p = .stored (l ++ [suggEntry x]) :=
        readFs_save_self _ _ _
      have hload2 : load_file (save_file fs (l ++ [suggEntry x]) p) p =
          (some (l ++ [suggEntry x]), []) := by simp [load_file, hread2]
      have hwf2 : ∀ s ∈ l ++ [suggEntry x], s.content.isSome = true := by
        intro s hs
        rcases List.mem_append.mp hs with h | h
        · exact hwf s h
        · rcases List.mem_singleton.mp h with rfl
          simp [suggEntry]
      have hany2 := anyContentMatches_eq x (l ++ [suggEntry x]) hwf2
      have htrue : (l ++ [suggEntry x]).any (ciMatch x) = true :=
        List.any_eq_true.mpr ⟨suggEntry x, by simp, hself⟩
      unfold add_suggestion
      rw [hload2]
      simp only [Option.getD_some]
      rw [hany2, htrue]
      simp
    · rw [countCI, List.countP_append]
      have : countCI x l = 0 := h0
      rw [countCI] at this
      simp [this, List.countP_cons, hself]
  · intro h1
    have htrue : l.any (ciMatch x) = true := by
      rw [List.any_eq_true]
      have := List.countP_pos.mp (show 0 < l.countP (ciMatch x) from h1)
      exact this
    constructor
    · unfold add_suggestion
      rw [hload]
      simp only [Option.getD_some]
      rw [hany, htrue]
      simp
    · omega

def fsC7 : FS := [("./test/suggestion.json", .stored [suggEntry "Pasta"])]

/-- Witness for C7 at the spec scenario: with suggestions containing Pasta,
adding pasta reports already-exists and performs no write. -/
theorem C7_addsuggest_idem_witness :
    countCI "pasta" [suggEntry "Pasta"] = 1 ∧
    add_suggestion "pasta" fsC7 "./test/suggestion.json" =
      some (fsC7, ["Suggestion already exists: " ++ "pasta"]) :=
  ⟨by decide,
   ((C7_addsuggest_idem fsC7 "./test/suggestion.json" "pasta" [suggEntry "Pasta"]
       (by decide) (by decide) (by decide)).2 (by decide)).1⟩

/-! ## Claim C10 -/

/-- Claim C10: for every on-disk state (missing, empty, corrupted or valid
files included), the read-only operations list, listsuggest and suggest
return the filesystem unchanged: no file and no backup is written. -/
theorem C10_readonly (fs : FS) (mp sp : String) (c : Clock) (k : Nat) :
    (list_meals fs mp).1 = fs ∧ (list_suggestions fs sp).1 = fs ∧
    (∀ r, suggest_meal c k fs mp sp = some r → r.1 = fs) := by
  refine ⟨?_, ?_, ?_⟩
  · unfold list_meals
    cases hl : load_file fs mp with
    | mk dOpt out1 =>
        cases dOpt with
        | none => rfl
        | some d => cases d with
          | nil => rfl
          | cons a rest => rfl
  · unfold list_suggestions
    cases hl : load_file fs sp with
    | mk sOpt out1 =>
        cases sOpt with
        | none => rfl
        | some d => cases d with
          | nil => rfl
          | cons a rest => rfl
  · intro r h
    unfold suggest_meal at h
    cases hl : load_file fs mp with
    | mk rm out1 =>
        cases hl2 : load_file fs sp with
        | mk sOpt out2 =>
            rw [hl, hl2] at h
            dsimp only at h
            cases sOpt with
            | none => cases h; rfl
            | some d =>
                cases d with
                | nil => cases h; rfl
                | cons a rest =>
                    dsimp only at h
                    cases he : suggest_eligible (nowTicks c) rm (a :: rest) with
                    | none => rw [he] at h; cases h
                    | some eligible =>
                        rw [he] at h
                        dsimp only at h
                        by_cases hemp : eligible.isEmpty
                        · rw [if_pos hemp] at h; cases h; rfl
                        · rw [if_neg hemp] at h; cases h; rfl

def fsC10 : FS :=
  [("./test/meals.json", .corrupt "oops"),
   ("./test/suggestion.json", .stored [suggEntry "Pasta"])]

/-- Witness for C10 at a concrete state with a corrupted ledger: suggest
completes and all three read-only operations leave the filesystem equal. -/
theorem C10_readonly_witness :
    (suggest_meal clkW 0 fsC10 "./test/meals.json" "./test/suggestion.json").map Prod.fst =
      some fsC10 ∧
    (list_meals fsC10 "./test/meals.json").1 = fsC10 ∧
    (list_suggestions fsC10 "./test/suggestion.json").1 = fsC10 := by
  obtain ⟨h1, h2, h3⟩ :=
    C10_readonly fsC10 "./test/meals.json" "./test/suggestion.json" clkW 0
  refine ⟨?_, h1, h2⟩
  cases hm : suggest_meal clkW 0 fsC10 "./test/meals.json" "./test/suggestion.json" with
  | none => exact absurd hm (by decide)
  | some r => simp [h3 r hm]

/-! ## Claim C1 -/

def fsC1 : FS := [("./test/meals.json", .corrupt "garbage")]

/-- Counterexample to claim C1: with the ledger file holding invalid JSON,
add_meal does not abort: it completes and the ledger file afterwards holds
the single new entry, so the prior on-disk corrupted ledger was overwritten. -/
theorem C1_counterexample :
    readFs fsC1 "./test/meals.json" = .corrupt "garbage" ∧
    (add_meal clkW "soup" "./test/meals.json" "./test/suggestion.json"
        (some "[2024-03-21]") fsC1).map (fun r => readFs r.1 "./test/meals.json") =
      some (.stored [newEntry clkW "soup" (some "[2024-03-21]")]) := by
  decide

/-- Claim C1 as amended: load does report corruption and return the
distinguished failed result, distinct from the empty list; but add_meal does
not abort on it: it substitutes an empty ledger and proceeds, overwriting
the prior corrupted ledger file (whose content is first copied verbatim to
the ledger backup path). -/
theorem C1_corrupt_load_overwrites (fs : FS) (c : Clock) (meal mf sf : String)
    (date : Option String) (raw : String)
    (hcor : readFs fs mf = .corrupt raw)
    (h1 : sf ≠ mf) (h2 : sf ≠ backupPath mf)
    (h3 : backupPath sf ≠ mf) (h4 : backupPath sf ≠ backupPath mf)
    (h5 : backupPath mf ≠ mf)
    (hwf : ∀ s ∈ ((load_file fs sf).1.getD []), s.content.isSome = true) :
    load_file fs mf = (none, ["Corrupted file. Abort loading"]) ∧
    (load_file fs mf).1 ≠ some [] ∧
    (add_meal c meal mf sf date fs).map (fun r => readFs r.1 mf) =
      some (.stored [newEntry c meal date]) ∧
    (add_meal c meal mf sf date fs).map (fun r => readFs r.1 (backupPath mf)) =
      some (.corrupt raw) := by
  have hload1 : load_file fs mf = (none, ["Corrupted file. Abort loading"]) := by
    simp [load_file, hcor]
  refine ⟨hload1, by rw [hload1]; simp, ?_⟩
  have hfs1self : readFs (save_file fs [newEntry c meal date] mf) mf =
      .stored [newEntry c meal date] := readFs_save_self _ _ _
  have hfs1backup : readFs (save_file fs [newEntry c meal date] mf) (backupPath mf) =
      .corrupt raw := by
    unfold save_file
    rw [hcor]
    rw [readFs_writeFs, if_neg h5, readFs_writeFs, if_pos rfl]
  have hfs1sf : load_file (save_file fs [newEntry c meal date] mf) sf =
      load_file fs sf :=
    load_file_eq_of_readFs_eq _ _ _ (readFs_save_other fs _ mf sf h1 h2)
  unfold add_meal
  rw [hload1]
  dsimp only
  simp only [Option.getD_none,
    show clean_old_meals (nowTicks c) [] 30 = some [] from rfl,
    Option.bind_eq_bind', Option.some_bind', List.nil_append]
  rw [hfs1sf]
  cases hsf : load_file fs sf with
  | mk sOpt out3 =>
      rw [hsf] at hwf
      dsimp only at hwf
      rw [anyContentMatches_eq meal (sOpt.getD []) hwf]
      dsimp only [Option.some_bind]
      cases hb : (sOpt.getD []).any (ciMatch meal) with
      | true => simp [hfs1self, hfs1backup]
      | false =>
          simp only [Option.pure_def, Option.map_some', Bool.false_eq_true, if_false]
          constructor
          · rw [readFs_save_other _ _ sf mf (Ne.symm h1) (Ne.symm h3), hfs1self]
          · rw [readFs_save_other _ _ sf (backupPath mf) (Ne.symm h2) (Ne.symm h4), hfs1backup]

/-- Witness for C1 as amended, at a concrete corrupted ledger. -/
theorem C1_corrupt_load_overwrites_witness :
    readFs fsC1 "./test/meals.json" = .corrupt "garbage" ∧
    (add_meal clkW "stew" "./test/meals.json" "./test/suggestion.json" none fsC1).map
        (fun r => readFs r.1 (backupPath "./test/meals.json")) =
      some (.corrupt "garbage") :=
  ⟨by decide,
   (C1_corrupt_load_overwrites fsC1 clkW "stew" "./test/meals.json" "./test/suggestion.json"
      none "garbage" (by decide) (by decide) (by decide) (by decide) (by decide) (by decide)
      (by decide)).2.2.2⟩

/-! ## Claim C2 -/

def fsC2 : FS :=
  [("./test/backup/backup_meals.json", .stored [recOld]),
   ("./test/meals.json", .stored [recA])]

/-- Counterexample to claim C2: with the ledger backup present but the
suggestion backup missing, restore reports no-file-to-restore-from, yet the
live ledger file has been changed (overwritten with the backup contents). -/
theorem C2_counterexample :
    (restore fsC2 "./test/meals.json" "./test/suggestion.json").2 =
      ["No file to restore from"] ∧
    readFs (restore fsC2 "./test/meals.json" "./test/suggestion.json").1 "./test/meals.json" =
      .stored [recOld] ∧
    readFs fsC2 "./test/meals.json" = .stored [recA] := by
  decide

/-- Claim C2 as amended: when the ledger backup is missing, restore reports
no-file-to-restore-from and changes nothing; when the ledger backup is
readable but the suggestion backup is missing, restore still reports
no-file-to-restore-from but the live ledger has already been overwritten
with the ledger backup contents, while the live suggestion file is
untouched. -/
theorem C2_restore_sequence (fs : FS) (df sf : String) :
    (readFs fs (backupPath df) = .absent →
      restore fs df sf = (fs, ["No file to restore from"])) ∧
    (∀ dl, readFs fs (backupPath df) = .stored dl →
      readFs fs (backupPath sf) = .absent →
      backupPath sf ≠ df → sf ≠ df →
      restore fs df sf = (writeFs fs df (.stored dl), ["No file to restore from"]) ∧
      readFs (writeFs fs df (.stored dl)) df = .stored dl ∧
      readFs (writeFs fs df (.stored dl)) sf = readFs fs sf) := by
  constructor
  · intro habs
    unfold restore
    rw [habs]
  · intro dl hdl hsb hne1 hne2
    have hsb1 : readFs (writeFs fs df (.stored dl)) (backupPath sf) = .absent := by
      rw [readFs_writeFs, if_neg hne1, hsb]
    refine ⟨?_, ?_, ?_⟩
    · unfold restore
      rw [hdl]
      dsimp only
      rw [hsb1]
    · rw [readFs_writeFs, if_pos rfl]
    · rw [readFs_writeFs, if_neg hne2]

/-- Witness for C2 as amended, both branches at concrete states: a state
with no ledger backup is returned unchanged, and in the second state the
ledger is overwritten while the suggestion file stays untouched. -/
theorem C2_restore_sequence_witness :
    restore [("./test/meals.json", FileState.stored [recA])] "./test/meals.json"
        "./test/suggestion.json" =
      ([("./test/meals.json", FileState.stored [recA])], ["No file to restore from"]) ∧
    restore fsC2 "./test/meals.json" "./test/suggestion.json" =
      (writeFs fsC2 "./test/meals.json" (.stored [recOld]), ["No file to restore from"]) ∧
    readFs (writeFs fsC2 "./test/meals.json" (.stored [recOld])) "./test/suggestion.json" =
      readFs fsC2 "./test/suggestion.json" :=
  ⟨(C2_restore_sequence [("./test/meals.json", FileState.stored [recA])] "./test/meals.json"
      "./test/suggestion.json").1 (by decide),
   ((C2_restore_sequence fsC2 "./test/meals.json" "./test/suggestion.json").2 [recOld]
      (by decide) (by decide) (by decide) (by decide)).1,
   ((C2_restore_sequence fsC2 "./test/meals.json" "./test/suggestion.json").2 [recOld]
      (by decide) (by decide) (by decide) (by decide)).2.2⟩

/-! ## Claim C4 -/

def fsC4 : FS := [("./test/meals.json", .stored [recOld, recA])]

/-- Counterexample to claim C4: deleteOne does not prune. Deleting the
second entry persists a ledger still holding a record 80 days old, outside
the 30-day retention window, so a write path persists an out-of-window
record. -/
theorem C4_counterexample :
    (delete_meal 2 fsC4 "./test/meals.json").map (fun r => readFs r.1 "./test/meals.json") =
      some (.stored [recOld]) ∧
    keepsMeal (nowTicks clkW) 30 recOld = false := by
  decide

/-- Claim C4 as amended: pruning of entries older than the retention window
is eager on the addMeal write path (the persisted ledger is the pruned
loaded list plus the new entry, and every pruned-in record is within the
window), and deleteAll persists the empty list; deleteOne, however, persists
the loaded list without pruning. -/
theorem C4_prune_on_add (c : Clock) (meal mf sf : String) (date : Option String)
    (fs : FS) (meals0 : List MealRec)
    (hload : (load_file fs mf).1 = some meals0)
    (hparse : ∀ r ∈ meals0, (r.timestamp.bind parseTimestamp).isSome = true)
    (h1 : sf ≠ mf) (h2 : sf ≠ backupPath mf) (h3 : backupPath sf ≠ mf)
    (hwf : ∀ s ∈ ((load_file fs sf).1.getD []), s.content.isSome = true) :
    ((add_meal c meal mf sf date fs).map (fun r => readFs r.1 mf) =
      some (.stored (meals0.filter (keepsMeal (nowTicks c) 30) ++ [newEntry c meal date]))) ∧
    (∀ r ∈ meals0.filter (keepsMeal (nowTicks c) 30), keepsMeal (nowTicks c) 30 r = true) ∧
    (∀ fs2 p2, readFs (delete_all fs2 p2).1 p2 = .stored []) := by
  refine ⟨?_, fun r hr => (List.mem_filter.mp hr).2, fun fs2 p2 => readFs_save_self _ _ _⟩
  have hself : readFs
      (save_file fs (meals0.filter (keepsMeal (nowTicks c) 30) ++ [newEntry c meal date]) mf) mf =
      .stored (meals0.filter (keepsMeal (nowTicks c) 30) ++ [newEntry c meal date]) :=
    readFs_save_self _ _ _
  have hsfload : load_file
      (save_file fs (meals0.filter (keepsMeal (nowTicks c) 30) ++ [newEntry c meal date]) mf) sf =
      load_file fs sf :=
    load_file_eq_of_readFs_eq _ _ _ (readFs_save_other fs _ mf sf h1 h2)
  cases hl : load_file fs mf with
  | mk mOpt out1 =>
      rw [hl] at hload
      dsimp only at hload
      subst hload
      unfold add_meal
      rw [hl]
      dsimp only
      simp only [Option.getD_some, clean_old_meals_eq_filter (nowTicks c) meals0 30 hparse,
        Option.bind_eq_bind', Option.some_bind']
      rw [hsfload]
      cases hsf : load_file fs sf with
      | mk sOpt out3 =>
          rw [hsf] at hwf
          dsimp only at hwf
          rw [anyContentMatches_eq meal (sOpt.getD []) hwf]
          simp only [Option.bind_eq_bind', Option.some_bind']
          cases hb : (sOpt.getD []).any (ciMatch meal) with
          | true => simp [hself]
          | false =>
              simp only [Option.pure_def, Option.map_some', Bool.false_eq_true, if_false]
              rw [readFs_save_other _ _ sf mf (Ne.symm h1) (Ne.symm h3), hself]

/-- Witness for C4 as amended: adding a meal over a ledger holding one
record 80 days old and one of today persists only the fresh record plus the
new entry. -/
theorem C4_prune_on_add_witness :
    (load_file fsC4 "./test/meals.json").1 = some [recOld, recA] ∧
    (add_meal clkW "pizza" "./test/meals.json" "./test/suggestion.json" none fsC4).map
        (fun r => readFs r.1 "./test/meals.json") =
      some (.stored [recA, newEntry clkW "pizza" none]) :=
  ⟨by decide,
   (C4_prune_on_add clkW "pizza" "./test/meals.json" "./test/suggestion.json" none fsC4
      [recOld, recA] (by decide) (by decide) (by decide) (by decide) (by decide)
      (by decide)).1.trans (by decide)⟩

/-! ## Claim C9 -/

def recC9 : MealRec := ⟨some "", some "[2020-01-01]", some "soup", none⟩

/-- Counterexample to claim C9: the reader does not prefer the new key
whenever it is present. On a record whose timestamp key is present but
empty, the displayed timestamp is the legacy date value, not the present
timestamp value. -/
theorem C9_counterexample :
    recC9.timestamp = some "" ∧
    displayTimestamp recC9 = "[2020-01-01]" ∧
    displayTimestamp recC9 ≠ "" := by
  decide

/-- Claim C9 as amended: display prefers the new keys when present and
non-empty, falls back to the legacy keys when the new keys are absent or
empty, and substitutes the sentinels when all candidates are absent or
empty; rows are numbered by 1-based position in file order. -/
theorem C9_display_rows (r : MealRec) (fs : FS) (p : String)
    (data : List MealRec) (i : Nat) :
    (∀ s, r.timestamp = some s → s ≠ "" → displayTimestamp r = s) ∧
    ((r.timestamp = none ∨ r.timestamp = some "") →
      ∀ s, r.date = some s → s ≠ "" → displayTimestamp r = s) ∧
    ((r.timestamp = none ∨ r.timestamp = some "") → (r.date = none ∨ r.date = some "") →
      displayTimestamp r = "unknown date") ∧
    (∀ s, r.content = some s → s ≠ "" → displayContent r = s) ∧
    ((r.content = none ∨ r.content = some "") →
      ∀ s, r.meal = some s → s ≠ "" → displayContent r = s) ∧
    ((r.content = none ∨ r.content = some "") → (r.meal = none ∨ r.meal = some "") →
      displayContent r = "unknown meal") ∧
    (readFs fs p = .stored data → data ≠ [] →
      (list_meals fs p).2.get? i = (data.get? i).map (fun rr => mealRow i rr)) ∧
    mealRow i r = toString (i + 1) ++ ". " ++ displayTimestamp r ++ " - " ++ displayContent r := by
  refine ⟨?_, ?_, ?_, ?_, ?_, ?_, ?_, rfl⟩
  · intro s hs hne
    simp [displayTimestamp, pyOr, pyOrS, hs, hne]
  · rintro (ht | ht) s hs hne <;> simp [displayTimestamp, pyOr, pyOrS, ht, hs, hne]
  · rintro (ht | ht) (hd | hd) <;> simp [displayTimestamp, pyOr, pyOrS, ht, hd]
  · intro s hs hne
    simp [displayContent, pyOr, pyOrS, hs, hne]
  · rintro (ht | ht) s hs hne <;> simp [displayContent, pyOr, pyOrS, ht, hs, hne]
  · rintro (ht | ht) (hd | hd) <;> simp [displayContent, pyOr, pyOrS, ht, hd]
  · intro hread hne
    have hload : load_file fs p = (some data, []) := by simp [load_file, hread]
    unfold list_meals
    rw [hload]
    cases data with
    | nil => exact absurd rfl hne
    | cons a rest =>
        dsimp only
        rw [List.nil_append, List.get?_map, List.get?_enum]
        cases (a :: rest).get? i <;> rfl

/-- Witness for C9 as amended, on a mixed file: a legacy-keyed record and a
new-keyed record display their own values, and the rows carry 1-based
indices in file order. -/
theorem C9_display_rows_witness :
    displayTimestamp ⟨none, some "[2020-05-05]", none, some "toast"⟩ = "[2020-05-05]" ∧
    displayContent ⟨none, some "[2020-05-05]", none, some "toast"⟩ = "toast" ∧
    (list_meals [("m", FileState.stored [recA, ⟨none, some "[2020-05-05]", none, some "toast"⟩])]
        "m").2.get? 1 = some "2. [2020-05-05] - toast" := by
  obtain ⟨-, h2, -, -, h5, -, -, -⟩ :=
    C9_display_rows (⟨none, some "[2020-05-05]", none, some "toast"⟩ : MealRec)
      [("m", FileState.stored [recA, ⟨none, some "[2020-05-05]", none, some "toast"⟩])] "m"
      [recA, ⟨none, some "[2020-05-05]", none, some "toast"⟩] 1
  obtain ⟨-, -, -, -, -, -, h7, -⟩ :=
    C9_display_rows (⟨none, some "[2020-05-05]", none, some "toast"⟩ : MealRec)
      [("m", FileState.stored [recA, ⟨none, some "[2020-05-05]", none, some "toast"⟩])] "m"
      [recA, ⟨none, some "[2020-05-05]", none, some "toast"⟩] 1
  refine ⟨h2 (Or.inl rfl) "[2020-05-05]" rfl (by decide),
          h5 (Or.inl rfl) "toast" rfl (by decide), ?_⟩
  rw [h7 (by decide) (by decide)]
  decide

/-! ## Claim C3: path lemmas -/

theorem stringMk_data (s : String) : String.mk s.data = s := by
  cases s
  rfl

theorem data_ne_nil_of_ne_empty (s : String) (h : s ≠ "") : s.data ≠ [] := by
  intro hd
  apply h
  rw [← stringMk_data s, hd]

theorem joinPath_not_abs (b : String) (hb : ∀ ch ∈ b.data, ch ≠ '/') (hne : b ≠ "") :
    ¬ b.data.head? = some '/' := by
  cases hd : b.data with
  | nil => exact absurd hd (data_ne_nil_of_ne_empty b hne)
  | cons c0 rest =>
      intro hh
      simp only [List.head?_cons, Option.some.injEq] at hh
      exact hb c0 (by rw [hd]; exact List.mem_cons_self c0 rest) hh

theorem rev_head_slash (a : String) (hc : a.data.getLast? = some '/') :
    ∃ rest, a.data.reverse = '/' :: rest := by
  cases hrev : a.data.reverse with
  | nil =>
      have : a.data.reverse.head? = some '/' := by rw [List.head?_reverse]; exact hc
      rw [hrev] at this
      simp at this
  | cons x xs =>
      have : a.data.reverse.head? = some '/' := by rw [List.head?_reverse]; exact hc
      rw [hrev] at this
      simp only [List.head?_cons, Option.some.injEq] at this
      exact ⟨xs, by rw [this]⟩

theorem basename_join (a b : String) (hb : ∀ ch ∈ b.data, ch ≠ '/') (hne : b ≠ "") :
    basename (joinPath a b) = b := by
  have hpb : ∀ ch ∈ b.data.reverse, (fun c => decide (c ≠ '/')) ch = true := by
    intro ch hch
    simpa using hb ch (List.mem_reverse.mp hch)
  unfold joinPath
  rw [if_neg (joinPath_not_abs b hb hne)]
  by_cases hc : a = "" ∨ a.data.getLast? = some '/'
  · rw [if_pos hc]
    unfold basename
    rw [String.data_append, List.reverse_append]
    rcases hc with hc | hc
    · subst hc
      rw [show ("" : String).data = [] from rfl, List.reverse_nil,
        List.takeWhile_append_of_pos hpb]
      simp [stringMk_data]
    · obtain ⟨rest, hrest⟩ := rev_head_slash a hc
      rw [hrest, List.takeWhile_append_of_pos hpb,
        show ('/' :: rest).takeWhile (fun c => c ≠ '/') = [] from by simp [List.takeWhile_cons]]
      simp [stringMk_data]
  · rw [if_neg hc]
    unfold basename
    rw [String.data_append, String.data_append, List.reverse_append,
      List.takeWhile_append_of_pos hpb, List.reverse_append,
      show ("/" : String).data = ['/'] from rfl]
    simp [stringMk_data, List.takeWhile_cons]

theorem dropWhile_joinPath (a b : String) (hb : ∀ ch ∈ b.data, ch ≠ '/') (hne : b ≠ "") :
    ((joinPath a b).data.reverse).dropWhile (fun c => c ≠ '/') =
      (if a = "" then []
       else if a.data.getLast? = some '/' then a.data.reverse
       else '/' :: a.data.reverse) := by
  have hpb : ∀ ch ∈ b.data.reverse, (fun c => decide (c ≠ '/')) ch = true := by
    intro ch hch
    simpa using hb ch (List.mem_reverse.mp hch)
  unfold joinPath
  rw [if_neg (joinPath_not_abs b hb hne)]
  by_cases h0 : a = ""
  · subst h0
    rw [if_pos (Or.inl rfl), if_pos rfl]
    rw [show (("" : String) ++ b).data = b.data from by simp,
      ← List.append_nil b.data.reverse, List.dropWhile_append_of_pos hpb]
    rfl
  · by_cases h1 : a.data.getLast? = some '/'
    · rw [if_pos (Or.inr h1), if_neg h0, if_pos h1]
      obtain ⟨rest, hrest⟩ := rev_head_slash a h1
      rw [String.data_append, List.reverse_append, List.dropWhile_append_of_pos hpb, hrest]
      simp [List.dropWhile_cons]
    · rw [if_neg (by simp [h0, h1]), if_neg h0, if_neg h1]
      rw [String.data_append, String.data_append, List.reverse_append,
        List.dropWhile_append_of_pos hpb, List.reverse_append,
        show ("/" : String).data = ['/'] from rfl]
      simp [List.dropWhile_cons]

theorem dirname_joinPath_eq (a b1 b2 : String)
    (hb1 : ∀ ch ∈ b1.data, ch ≠ '/') (hne1 : b1 ≠ "")
    (hb2 : ∀ ch ∈ b2.data, ch ≠ '/') (hne2 : b2 ≠ "") :
    dirname (joinPath a b1) = dirname (joinPath a b2) := by
  unfold dirname
  rw [dropWhile_joinPath a b1 hb1 hne1, dropWhile_joinPath a b2 hb2 hne2]

theorem basename_ne_slash (p : String) : ∀ ch ∈ (basename p).data, ch ≠ '/' := by
  intro ch hch
  unfold basename at hch
  rw [show (String.mk ((p.data.reverse.takeWhile (fun c => c ≠ '/'))).reverse).data =
      ((p.data.reverse.takeWhile (fun c => c ≠ '/'))).reverse from rfl] at hch
  have := List.mem_takeWhile_imp (List.mem_reverse.mp hch)
  simpa using this

theorem append_ne_slash (s t : String)
    (hs : ∀ ch ∈ s.data, ch ≠ '/') (ht : ∀ ch ∈ t.data, ch ≠ '/') :
    ∀ ch ∈ (s ++ t).data, ch ≠ '/' := by
  intro ch hch
  rw [String.data_append] at hch
  rcases List.mem_append.mp hch with h | h
  · exact hs ch h
  · exact ht ch h

theorem append_ne_empty_right (s t : String) (ht : t ≠ "") : s ++ t ≠ "" := by
  intro h
  apply ht
  have hd : (s ++ t).data = [] := by rw [h]
  rw [String.data_append] at hd
  rw [← stringMk_data t, (List.append_eq_nil.mp hd).2]

/-! ## Claim C3 -/

/-- Counterexample to claim C3: with basePath absent the suggestion filename
is suggestion.json, not the data filename prefixed; the returned fixed path
differs from the one the claim states in both environments. -/
theorem C3_counterexample :
    get_suggestion_file true none = "./live/suggestion.json" ∧
    get_suggestion_file true none ≠ "./live/suggestion_meals.json" ∧
    get_suggestion_file false none ≠ "./test/suggestion_meals.json" := by
  decide

/-- Claim C3 as amended: with basePath absent, suggestionFilePath returns
the fixed path named suggestion.json under the live or test root (not the
data filename prefixed with suggestion_); with basePath given, it returns
dir(basePath)/(live or test)/suggestion_(basename(basePath)).json, which is
the data file path for the same arguments with its filename prefixed by
suggestion_ (same directory, prefixed basename). -/
theorem C3_suggestion_path (live : Bool) (p : String) :
    get_suggestion_file live none =
      (if live then "./live/suggestion.json" else "./test/suggestion.json") ∧
    get_suggestion_file live (some p) =
      joinPath (joinPath (dirname p) (if live then "live" else "test"))
        (SUGGESTION_SUFFIX ++ basename p ++ ".json") ∧
    get_data_file live (some p) =
      joinPath (joinPath (dirname p) (if live then "live" else "test"))
        (basename p ++ ".json") ∧
    basename (get_suggestion_file live (some p)) =
      SUGGESTION_SUFFIX ++ basename (get_data_file live (some p)) ∧
    dirname (get_suggestion_file live (some p)) = dirname (get_data_file live (some p)) := by
  have hjson : ∀ ch ∈ (".json" : String).data, ch ≠ '/' := by decide
  have hsugg : ∀ ch ∈ SUGGESTION_SUFFIX.data, ch ≠ '/' := by decide
  have hjsonne : (".json" : String) ≠ "" := by decide
  have hbd : ∀ ch ∈ (basename p ++ ".json").data, ch ≠ '/' :=
    append_ne_slash _ _ (basename_ne_slash p) hjson
  have hbs : ∀ ch ∈ (SUGGESTION_SUFFIX ++ basename p ++ ".json").data, ch ≠ '/' :=
    append_ne_slash _ _ (append_ne_slash _ _ hsugg (basename_ne_slash p)) hjson
  have hbdne : basename p ++ ".json" ≠ "" := append_ne_empty_right _ _ hjsonne
  have hbsne : SUGGESTION_SUFFIX ++ basename p ++ ".json" ≠ "" :=
    append_ne_empty_right _ _ hjsonne
  have h2 : get_suggestion_file live (some p) =
      joinPath (joinPath (dirname p) (if live then "live" else "test"))
        (SUGGESTION_SUFFIX ++ basename p ++ ".json") := by
    cases live <;> rfl
  have h3 : get_data_file live (some p) =
      joinPath (joinPath (dirname p) (if live then "live" else "test"))
        (basename p ++ ".json") := by
    cases live <;> rfl
  refine ⟨by cases live <;> rfl, h2, h3, ?_, ?_⟩
  · rw [h2, h3, basename_join _ _ hbs hbsne, basename_join _ _ hbd hbdne,
      String.append_assoc]
  · rw [h2, h3]
    exact dirname_joinPath_eq _ _ _ hbs hbsne hbd hbdne

end MealTracker
